import Mathlib

/-!
Verification of the core of `src/src/main.ts` (a map-anchored merge game):
world generation, the sparse modification overlay, the interaction state
machine, persistence, and the geolocation movement facade.

Conventions of the embedding:
* JS `number | undefined` cell/token values become `Option ℤ`.
* JS 32-bit unsigned arithmetic (`>>> 0`, `Math.imul`) becomes `Nat`
  arithmetic reduced `% 2^32`.
* JS float division in `hash01` is modelled exactly in `ℚ` (the values
  involved are exactly representable where the theorems need them).
* The JS `Map` is modelled as an insertion-ordered association list whose
  `set` replaces in place, matching `Map.prototype.set` semantics.
-/

namespace D3

/-! ### Tunable world parameters (main.ts lines 80-86) -/

/-- `CACHE_SPAWN_PROBABILITY = 0.1` (main.ts line 82). -/
def CACHE_SPAWN_PROBABILITY : ℚ := 1/10

/-- `INTERACT_RANGE_STEPS = 5` (main.ts line 83). -/
def INTERACT_RANGE_STEPS : ℤ := 5

/-- `WIN_VALUE = 32` (main.ts line 85). -/
def WIN_VALUE : ℤ := 32

/-! ### hash01 (main.ts lines 8-16)

```ts
function hash01(s: string): number {
  let h = 2166136261 >>> 0;
  for (let i = 0; i < s.length; i++) {
    h ^= s.charCodeAt(i);
    h = Math.imul(h, 16777619);
  }
  return (h >>> 0) / 0xffffffff;
}
```
`Math.imul` and `>>> 0` keep `h` congruent mod 2^32, so the loop body is
`h := ((h ^^^ c) * 16777619) % 2^32`.  `charCodeAt` yields the UTF-16 code
unit, which equals `Char.toNat` for every character of the Basic
Multilingual Plane (all keys the program builds are ASCII). -/

def UINT32_MOD : ℕ := 4294967296

def fnvStep (h c : ℕ) : ℕ := ((h ^^^ c) * 16777619) % UINT32_MOD

def fnvHash (s : String) : ℕ :=
  s.data.foldl (fun h ch => fnvStep h ch.toNat) 2166136261

/-- The final `(h >>> 0) / 0xffffffff`; note the divisor is `2^32 - 1`,
not `2^32`. -/
def hash01 (s : String) : ℚ := (fnvHash s : ℚ) / 4294967295

/-! ### Cell coordinates and keys (main.ts lines 119-123)

```ts
type CellID = { i: number; j: number };
function cellKey(c: CellID): string { return `${c.i}:${c.j}`; }
```
-/

structure CellID where
  i : ℤ
  j : ℤ
deriving DecidableEq

/-- ``cellKey`` — JS template-literal number formatting coincides with
`Int.repr` on integral values. -/
def cellKey (c : CellID) : String := Int.repr c.i ++ ":" ++ Int.repr c.j

/-! #### Injectivity of `cellKey`

The spec requires the key form to be a bijection with the coordinate.
We prove `cellKey` injective by relating `Nat.repr` to `Nat.digits` and
observing that decimal digit characters never contain `':'` or `'-'`. -/

lemma digitChar_eq_star (d : ℕ) (h : 16 ≤ d) : Nat.digitChar d = '*' := by
  obtain ⟨e, rfl⟩ : ∃ e, d = e + 16 := ⟨d - 16, by omega⟩
  rfl

lemma digitChar_ne_colon (d : ℕ) : Nat.digitChar d ≠ ':' := by
  by_cases h : d < 16
  · interval_cases d <;> decide
  · rw [digitChar_eq_star d (by omega)]; decide

lemma digitChar_ne_dash (d : ℕ) : Nat.digitChar d ≠ '-' := by
  by_cases h : d < 16
  · interval_cases d <;> decide
  · rw [digitChar_eq_star d (by omega)]; decide

lemma digitChar_inj_lt (a b : ℕ) (ha : a < 10) (hb : b < 10)
    (h : Nat.digitChar a = Nat.digitChar b) : a = b := by
  interval_cases a <;> interval_cases b <;> simp_all <;> exact absurd h (by decide)

lemma toDigitsCore_eq_digits (n : ℕ) : ∀ (f : ℕ) (l : List Char), n < f → 0 < n →
    Nat.toDigitsCore 10 f n l = ((Nat.digits 10 n).reverse.map Nat.digitChar) ++ l := by
  induction n using Nat.strong_induction_on with
  | _ n ih =>
    intro f l hf hn
    cases f with
    | zero => omega
    | succ f =>
      rw [Nat.toDigitsCore]
      by_cases h0 : n / 10 = 0
      · rw [if_pos h0]
        rw [Nat.digits_def' (by norm_num : (1:ℕ) < 10) hn, h0]
        simp
      · rw [if_neg h0]
        have hn' : 0 < n / 10 := Nat.pos_of_ne_zero h0
        have hlt : n / 10 < n := Nat.div_lt_self hn (by norm_num)
        have hf' : n / 10 < f := by omega
        rw [ih (n / 10) hlt f (Nat.digitChar (n % 10) :: l) hf' hn']
        rw [Nat.digits_def' (by norm_num : (1:ℕ) < 10) hn]
        simp

lemma nat_repr_eq_of_pos (n : ℕ) (hn : 0 < n) :
    Nat.repr n = ((Nat.digits 10 n).reverse.map Nat.digitChar).asString := by
  unfold Nat.repr Nat.toDigits
  rw [toDigitsCore_eq_digits n (n+1) [] (Nat.lt_succ_self n) hn, List.append_nil]

lemma nat_repr_data_of_pos (n : ℕ) (hn : 0 < n) :
    (Nat.repr n).data = (Nat.digits 10 n).reverse.map Nat.digitChar := by
  rw [nat_repr_eq_of_pos n hn]
  rfl

lemma colon_not_mem_nat_repr (n : ℕ) : ':' ∉ (Nat.repr n).data := by
  rcases Nat.eq_zero_or_pos n with h | h
  · subst h; decide
  · rw [nat_repr_data_of_pos n h]
    intro hmem
    rcases List.mem_map.mp hmem with ⟨d, _, hd⟩
    exact digitChar_ne_colon d hd

lemma dash_not_mem_nat_repr (n : ℕ) : '-' ∉ (Nat.repr n).data := by
  rcases Nat.eq_zero_or_pos n with h | h
  · subst h; decide
  · rw [nat_repr_data_of_pos n h]
    intro hmem
    rcases List.mem_map.mp hmem with ⟨d, _, hd⟩
    exact digitChar_ne_dash d hd

lemma map_digitChar_inj : ∀ (l1 l2 : List ℕ), (∀ x ∈ l1, x < 10) → (∀ x ∈ l2, x < 10) →
    l1.map Nat.digitChar = l2.map Nat.digitChar → l1 = l2 := by
  intro l1
  induction l1 with
  | nil => intro l2 _ _ h; cases l2 <;> simp_all
  | cons a t ih =>
    intro l2 h1 h2 h
    cases l2 with
    | nil => simp_all
    | cons b t2 =>
      simp only [List.map_cons, List.cons.injEq] at h
      have ha : a < 10 := h1 a (List.mem_cons_self a t)
      have hb : b < 10 := h2 b (List.mem_cons_self b t2)
      have hab : a = b := digitChar_inj_lt a b ha hb h.1
      have ht : t = t2 := ih t2 (fun x hx => h1 x (List.mem_cons_of_mem a hx))
        (fun x hx => h2 x (List.mem_cons_of_mem b hx)) h.2
      rw [hab, ht]

lemma nat_repr_injective (m n : ℕ) (h : Nat.repr m = Nat.repr n) : m = n := by
  have hdata : (Nat.repr m).data = (Nat.repr n).data := by rw [h]
  rcases Nat.eq_zero_or_pos m with hm | hm <;> rcases Nat.eq_zero_or_pos n with hn | hn
  · omega
  · exfalso
    subst hm
    rw [nat_repr_data_of_pos n hn] at hdata
    have h0 : (Nat.repr 0).data = ['0'] := by decide
    rw [h0] at hdata
    have hlen : ((Nat.digits 10 n).reverse.map Nat.digitChar).length = 1 := by
      rw [← hdata]; rfl
    simp only [List.length_map, List.length_reverse] at hlen
    rcases List.length_eq_one.mp hlen with ⟨d, hd⟩
    have hd10 : d < 10 := by
      have : d ∈ Nat.digits 10 n := by rw [hd]; exact List.mem_singleton_self d
      exact Nat.digits_lt_base (by norm_num) this
    rw [hd, List.reverse_singleton, List.map_singleton] at hdata
    have : Nat.digitChar d = '0' := by
      have := hdata.symm
      simpa using this
    have hd0 : d = 0 := digitChar_inj_lt d 0 hd10 (by norm_num) (by simpa using this)
    have : n = Nat.ofDigits 10 (Nat.digits 10 n) := (Nat.ofDigits_digits 10 n).symm
    rw [hd, hd0] at this
    simp [Nat.ofDigits] at this
    omega
  · exfalso
    subst hn
    rw [nat_repr_data_of_pos m hm] at hdata
    have h0 : (Nat.repr 0).data = ['0'] := by decide
    rw [h0] at hdata
    have hlen : ((Nat.digits 10 m).reverse.map Nat.digitChar).length = 1 := by
      rw [hdata]; rfl
    simp only [List.length_map, List.length_reverse] at hlen
    rcases List.length_eq_one.mp hlen with ⟨d, hd⟩
    have hd10 : d < 10 := by
      have : d ∈ Nat.digits 10 m := by rw [hd]; exact List.mem_singleton_self d
      exact Nat.digits_lt_base (by norm_num) this
    rw [hd, List.reverse_singleton, List.map_singleton] at hdata
    have : Nat.digitChar d = '0' := by simpa using hdata
    have hd0 : d = 0 := digitChar_inj_lt d 0 hd10 (by norm_num) (by simpa using this)
    have : m = Nat.ofDigits 10 (Nat.digits 10 m) := (Nat.ofDigits_digits 10 m).symm
    rw [hd, hd0] at this
    simp [Nat.ofDigits] at this
    omega
  · rw [nat_repr_data_of_pos m hm, nat_repr_data_of_pos n hn] at hdata
    have hdig : (Nat.digits 10 m).reverse = (Nat.digits 10 n).reverse := by
      apply map_digitChar_inj
      · intro x hx
        exact Nat.digits_lt_base (by norm_num) (List.mem_reverse.mp hx)
      · intro x hx
        exact Nat.digits_lt_base (by norm_num) (List.mem_reverse.mp hx)
      · exact hdata
    have : Nat.digits 10 m = Nat.digits 10 n := List.reverse_injective hdig
    calc m = Nat.ofDigits 10 (Nat.digits 10 m) := (Nat.ofDigits_digits 10 m).symm
      _ = Nat.ofDigits 10 (Nat.digits 10 n) := by rw [this]
      _ = n := Nat.ofDigits_digits 10 n

lemma string_data_append (s t : String) : (s ++ t).data = s.data ++ t.data := rfl

lemma string_eq_of_data_eq (s t : String) (h : s.data = t.data) : s = t := by
  cases s; cases t; exact congrArg String.mk h

lemma colon_not_mem_int_repr (m : ℤ) : ':' ∉ (Int.repr m).data := by
  cases m with
  | ofNat k =>
    show ':' ∉ (Nat.repr k).data
    exact colon_not_mem_nat_repr k
  | negSucc k =>
    show ':' ∉ ("-" ++ Nat.repr (k+1)).data
    rw [string_data_append]
    intro hmem
    rcases List.mem_append.mp hmem with h | h
    · simp at h
    · exact colon_not_mem_nat_repr (k+1) h

lemma int_repr_injective (m n : ℤ) (h : Int.repr m = Int.repr n) : m = n := by
  cases m with
  | ofNat a =>
    cases n with
    | ofNat b =>
      have : Nat.repr a = Nat.repr b := h
      rw [nat_repr_injective a b this]
    | negSucc b =>
      exfalso
      have hdata : (Nat.repr a).data = ("-" ++ Nat.repr (b+1)).data := congrArg String.data h
      rw [string_data_append] at hdata
      have : '-' ∈ (Nat.repr a).data := by
        rw [hdata]; simp
      exact dash_not_mem_nat_repr a this
  | negSucc a =>
    cases n with
    | ofNat b =>
      exfalso
      have hdata : ("-" ++ Nat.repr (a+1)).data = (Nat.repr b).data := congrArg String.data h
      rw [string_data_append] at hdata
      have : '-' ∈ (Nat.repr b).data := by
        rw [← hdata]; simp
      exact dash_not_mem_nat_repr b this
    | negSucc b =>
      have hdata : ("-" ++ Nat.repr (a+1)).data = ("-" ++ Nat.repr (b+1)).data :=
        congrArg String.data h
      rw [string_data_append, string_data_append] at hdata
      have hnat : (Nat.repr (a+1)).data = (Nat.repr (b+1)).data := by
        simpa using hdata
      have hsucc := nat_repr_injective (a+1) (b+1)
        (string_eq_of_data_eq _ _ hnat)
      have hab : a = b := by omega
      rw [hab]

lemma append_colon_inj : ∀ (a1 : List Char) (b1 : List Char) (a2 : List Char) (b2 : List Char),
    ':' ∉ a1 → ':' ∉ a2 → a1 ++ ':' :: b1 = a2 ++ ':' :: b2 → a1 = a2 ∧ b1 = b2 := by
  intro a1
  induction a1 with
  | nil =>
    intro b1 a2 b2 _ h2 h
    cases a2 with
    | nil => simpa using h
    | cons c t =>
      exfalso
      simp only [List.nil_append, List.cons_append, List.cons.injEq] at h
      exact h2 (h.1 ▸ List.mem_cons_self c t)
  | cons c t ih =>
    intro b1 a2 b2 h1 h2 h
    cases a2 with
    | nil =>
      exfalso
      simp only [List.nil_append, List.cons_append, List.cons.injEq] at h
      exact h1 (h.1.symm ▸ List.mem_cons_self c t)
    | cons c2 t2 =>
      simp only [List.cons_append, List.cons.injEq] at h
      have ht := ih b1 t2 b2 (fun hx => h1 (List.mem_cons_of_mem c hx))
        (fun hx => h2 (List.mem_cons_of_mem c2 hx)) h.2
      exact ⟨by rw [h.1, ht.1], ht.2⟩

/-- The string key form is injective: distinct `(i, j)` pairs never collide
(spec section 3, "must be a bijection with the coordinate"). -/
theorem cellKey_injective (c1 c2 : CellID) (h : cellKey c1 = cellKey c2) : c1 = c2 := by
  have hdata : (Int.repr c1.i).data ++ ':' :: (Int.repr c1.j).data
      = (Int.repr c2.i).data ++ ':' :: (Int.repr c2.j).data := by
    have := congrArg String.data h
    simpa [cellKey, string_data_append] using this
  have hsplit := append_colon_inj _ _ _ _ (colon_not_mem_int_repr c1.i)
    (colon_not_mem_int_repr c2.i) hdata
  have hi : c1.i = c2.i := int_repr_injective _ _ (string_eq_of_data_eq _ _ hsplit.1)
  have hj : c1.j = c2.j := int_repr_injective _ _ (string_eq_of_data_eq _ _ hsplit.2)
  cases c1; cases c2
  simp_all

/-! ### The modification overlay (main.ts lines 175-187)

```ts
const modified = new Map<string, number | undefined>();
function readCell(c: CellID): number | undefined {
  const k = cellKey(c);
  if (modified.has(k)) return modified.get(k);
  return initialTokenValue(c);
}
function writeCell(c: CellID, v: number | undefined): void {
  modified.set(cellKey(c), v);
}
```
A JS `Map` is an insertion-ordered collection with unique keys whose `set`
overwrites in place; we model it as an association list with exactly that
`set` semantics. -/

abbrev Overlay := List (String × Option ℤ)

/-- `Map.prototype.set`: overwrite in place if the key exists, else append. -/
def mapSet {α : Type} : List (String × α) → String → α → List (String × α)
  | [], k, v => [(k, v)]
  | (k', v') :: rest, k, v =>
    if k' = k then (k, v) :: rest else (k', v') :: mapSet rest k v

/-- `Map.prototype.get` combined with `has`: `none` means the key is absent. -/
def mapGet? {α : Type} : List (String × α) → String → Option α
  | [], _ => none
  | (k', v') :: rest, k => if k' = k then some v' else mapGet? rest k

/-- `Map.prototype.has`. -/
def mapHas {α : Type} (m : List (String × α)) (k : String) : Bool := (mapGet? m k).isSome

/-! ### Deterministic generator (main.ts lines 163-173)

```ts
function initialTokenValue(c: CellID): number | undefined {
  const k = cellKey(c);
  if (luck(`${k}|spawn`) >= CACHE_SPAWN_PROBABILITY) return undefined;
  const r = luck(`${k}|value`);
  if (r < 0.25) return 1;
  if (r < 0.5) return 2;
  if (r < 0.75) return 4;
  return 8;
}
```
`luck` is `resolveLuck(LUCK_LIB) ?? hash01` (lines 40-41); the module
`./_luck.ts` it probes is not part of the repository, so the generator is
parameterised over the pure `string -> [0,1)` function actually in use
(`hash01` being the bundled fallback). -/

def initialTokenValue (lk : String → ℚ) (c : CellID) : Option ℤ :=
  let k := cellKey c
  if lk (k ++ "|spawn") ≥ CACHE_SPAWN_PROBABILITY then none
  else
    let r := lk (k ++ "|value")
    if r < 1/4 then some 1
    else if r < 1/2 then some 2
    else if r < 3/4 then some 4
    else some 8

/-- `readCell` (main.ts lines 178-182). -/
def readCell (lk : String → ℚ) (m : Overlay) (c : CellID) : Option ℤ :=
  match mapGet? m (cellKey c) with
  | some v => v
  | none => initialTokenValue lk c

/-- `writeCell` (main.ts lines 185-187). -/
def writeCell (m : Overlay) (c : CellID) (v : Option ℤ) : Overlay :=
  mapSet m (cellKey c) v

/-! ### Player/session state and the interaction engine -/

/-- `type MovementMode = "buttons" | "geolocation"` (main.ts line 89). -/
inductive MovementMode
  | buttons
  | geolocation
deriving DecidableEq

/-- The mutable state the interaction engine touches: `playerCell`
(line 212), `held` (line 190), `modified` (line 175), `movementMode`
(line 216). -/
structure GameState where
  playerCell : CellID
  held : Option ℤ
  modified : Overlay
  movementMode : MovementMode
deriving DecidableEq

/-- `checkWin` (main.ts lines 205-209): the win message is flashed iff the
held value is defined and `held >= WIN_VALUE`. -/
def checkWin (held : Option ℤ) : Bool :=
  match held with
  | some v => decide (WIN_VALUE ≤ v)
  | none => false

/-- The five interaction outcomes plus the out-of-range rejection. The
payloads record the values named in the flash messages. -/
inductive Outcome
  | tooFar
  | nothing
  | pickup (v : ℤ)
  | place (v : ℤ)
  | merged (v : ℤ)
  | swapped (cellGets holdingGets : ℤ)
deriving DecidableEq

structure ClickResult where
  state : GameState
  outcome : Outcome
  /-- whether `checkWin` flashed the win message during this interaction -/
  winSignal : Bool
deriving DecidableEq

/-- `handleCellClick` (main.ts lines 436-484), the transition table.
`checkWin` is invoked by the source only on the pickup and merge branches;
the place and swap branches return without calling it, hence
`winSignal := false` there. -/
def handleCellClick (lk : String → ℚ) (s : GameState) (id : CellID) : ClickResult :=
  let current := readCell lk s.modified id
  match s.held with
  | none =>
    match current with
    | some cv =>
      let s' : GameState :=
        { s with held := some cv, modified := writeCell s.modified id none }
      ⟨s', Outcome.pickup cv, checkWin s'.held⟩
    | none => ⟨s, Outcome.nothing, false⟩
  | some v =>
    match current with
    | none =>
      ⟨{ s with modified := writeCell s.modified id (some v), held := none },
        Outcome.place v, false⟩
    | some cv =>
      if cv = v then
        let s' : GameState :=
          { s with modified := writeCell s.modified id (some (v * 2)), held := none }
        ⟨s', Outcome.merged (v * 2), checkWin s'.held⟩
      else
        ⟨{ s with modified := writeCell s.modified id (some v), held := some cv },
          Outcome.swapped v cv, false⟩

/-- `euclidSteps` squared (main.ts lines 157-161). The source compares
`Math.sqrt(dx*dx + dy*dy) <= 5`; since IEEE-754 `sqrt` is correctly
rounded and the operands are integers, that comparison is equivalent to
`dx^2 + dy^2 <= 25`, which we use directly. -/
def euclidStepsSq (a b : CellID) : ℤ :=
  (a.i - b.i) * (a.i - b.i) + (a.j - b.j) * (a.j - b.j)

/-- The range gate of the click handler (main.ts lines 423-430): clicks on
cells farther than `INTERACT_RANGE_STEPS` flash "Too far away to interact."
and return before `handleCellClick` runs. -/
def clickCell (lk : String → ℚ) (s : GameState) (id : CellID) : ClickResult :=
  if euclidStepsSq id s.playerCell ≤ INTERACT_RANGE_STEPS * INTERACT_RANGE_STEPS then
    handleCellClick lk s id
  else
    ⟨s, Outcome.tooFar, false⟩

/-! ### Overlay map lemmas -/

lemma mapGet?_set_self (m : Overlay) (k : String) (v : Option ℤ) :
    mapGet? (mapSet m k v) k = some v := by
  induction m with
  | nil => simp [mapSet, mapGet?]
  | cons p rest ih =>
    obtain ⟨k', v'⟩ := p
    by_cases h : k' = k
    · simp [mapSet, mapGet?, h]
    · simp [mapSet, mapGet?, h, ih]

lemma mapGet?_set_ne (m : Overlay) (k k2 : String) (v : Option ℤ) (h : k ≠ k2) :
    mapGet? (mapSet m k v) k2 = mapGet? m k2 := by
  induction m with
  | nil => simp [mapSet, mapGet?, h]
  | cons p rest ih =>
    obtain ⟨k', v'⟩ := p
    by_cases hk : k' = k
    · subst hk
      simp [mapSet, mapGet?, h]
    · simp [mapSet, mapGet?, hk, ih]

lemma readCell_writeCell_self (lk : String → ℚ) (m : Overlay) (c : CellID) (v : Option ℤ) :
    readCell lk (writeCell m c v) c = v := by
  simp [readCell, writeCell, mapGet?_set_self]

lemma readCell_writeCell_ne (lk : String → ℚ) (m : Overlay) (c c2 : CellID) (v : Option ℤ)
    (h : c ≠ c2) : readCell lk (writeCell m c v) c2 = readCell lk m c2 := by
  have hk : cellKey c ≠ cellKey c2 := fun hkey => h (cellKey_injective c c2 hkey)
  simp [readCell, writeCell, mapGet?_set_ne _ _ _ _ hk]

/-! #### Branch characterizations of `handleCellClick` -/

lemma handleCellClick_nothing (lk : String → ℚ) (s : GameState) (id : CellID)
    (hheld : s.held = none) (hcur : readCell lk s.modified id = none) :
    handleCellClick lk s id = ⟨s, Outcome.nothing, false⟩ := by
  unfold handleCellClick
  simp only [hheld, hcur]

lemma handleCellClick_pickup (lk : String → ℚ) (s : GameState) (id : CellID) (cv : ℤ)
    (hheld : s.held = none) (hcur : readCell lk s.modified id = some cv) :
    handleCellClick lk s id =
      ⟨{ s with held := some cv, modified := writeCell s.modified id none },
        Outcome.pickup cv, checkWin (some cv)⟩ := by
  unfold handleCellClick
  simp only [hheld, hcur]

lemma handleCellClick_place (lk : String → ℚ) (s : GameState) (id : CellID) (v : ℤ)
    (hheld : s.held = some v) (hcur : readCell lk s.modified id = none) :
    handleCellClick lk s id =
      ⟨{ s with modified := writeCell s.modified id (some v), held := none },
        Outcome.place v, false⟩ := by
  unfold handleCellClick
  simp only [hheld, hcur]

lemma handleCellClick_merge (lk : String → ℚ) (s : GameState) (id : CellID) (v : ℤ)
    (hheld : s.held = some v) (hcur : readCell lk s.modified id = some v) :
    handleCellClick lk s id =
      ⟨{ s with modified := writeCell s.modified id (some (v * 2)), held := none },
        Outcome.merged (v * 2), checkWin none⟩ := by
  unfold handleCellClick
  simp only [hheld, hcur]
  rw [if_true]

lemma handleCellClick_swap (lk : String → ℚ) (s : GameState) (id : CellID) (v w : ℤ)
    (hheld : s.held = some v) (hcur : readCell lk s.modified id = some w)
    (hne : w ≠ v) :
    handleCellClick lk s id =
      ⟨{ s with modified := writeCell s.modified id (some v), held := some w },
        Outcome.swapped v w, false⟩ := by
  unfold handleCellClick
  simp only [hheld, hcur, if_neg hne]

/-- Shared concrete generator used by the closed witness statements. -/
def lk0 : String → ℚ := fun _ => 0

/-- Shared concrete cell used by the closed witness statements. -/
def c00 : CellID := ⟨0, 0⟩

/-- C4: the world store is read-through and write-persisted: a written value
shadows the generator and survives writes to other cells; an untouched cell
reads its generated value; `readCell` is total on arbitrary coordinates. -/
theorem C4_world_store_contract (lk : String → ℚ) :
    (∀ (m : Overlay) (c : CellID) (v : Option ℤ),
      readCell lk (writeCell m c v) c = v)
    ∧ (∀ (m : Overlay) (c : CellID) (ws : List (CellID × Option ℤ)),
        (∀ p ∈ ws, p.1 ≠ c) →
        readCell lk (ws.foldl (fun acc p => writeCell acc p.1 p.2) m) c = readCell lk m c)
    ∧ (∀ (m : Overlay) (c : CellID), mapHas m (cellKey c) = false →
        readCell lk m c = initialTokenValue lk c) := by
  refine ⟨readCell_writeCell_self lk, ?_, ?_⟩
  · intro m c ws
    induction ws generalizing m with
    | nil => intro _; rfl
    | cons p rest ih =>
      intro hne
      simp only [List.foldl_cons]
      rw [ih (writeCell m p.1 p.2) (fun q hq => hne q (List.mem_cons_of_mem p hq))]
      exact readCell_writeCell_ne lk m p.1 c p.2 (hne p (List.mem_cons_self p rest))
  · intro m c hnot
    unfold readCell
    unfold mapHas at hnot
    match hget : mapGet? m (cellKey c) with
    | some v => rw [hget] at hnot; simp at hnot
    | none => rfl

/-- C4 witness: a concrete write is read back; a write to a different cell
does not disturb it; an untouched cell reads the generated value. -/
theorem C4_world_store_contract_witness :
    readCell lk0 (writeCell [] c00 (some 5)) c00 = some 5
    ∧ readCell lk0
        ([((⟨1, 1⟩ : CellID), some 3)].foldl (fun acc p => writeCell acc p.1 p.2)
          (writeCell [] c00 (some 5))) c00
      = readCell lk0 (writeCell [] c00 (some 5)) c00
    ∧ readCell lk0 [] c00 = initialTokenValue lk0 c00 :=
  ⟨(C4_world_store_contract lk0).1 [] c00 (some 5),
    (C4_world_store_contract lk0).2.1 (writeCell [] c00 (some 5)) c00
      [((⟨1, 1⟩ : CellID), some 3)] (by decide),
    (C4_world_store_contract lk0).2.2 [] c00 (by decide)⟩

/-- C1: within range, the transition table is exactly pickup / place /
merge (to `2 * v`) / swap, first match wins, and swap preserves the
multiset of values in play. -/
theorem C1_transition_table (lk : String → ℚ) (s : GameState) (id : CellID)
    (hin : euclidStepsSq id s.playerCell ≤ INTERACT_RANGE_STEPS * INTERACT_RANGE_STEPS) :
    (s.held = none → readCell lk s.modified id = none →
      clickCell lk s id = ⟨s, Outcome.nothing, false⟩)
    ∧ (∀ v, s.held = none → readCell lk s.modified id = some v →
        (clickCell lk s id).state.held = some v
        ∧ readCell lk (clickCell lk s id).state.modified id = none
        ∧ (clickCell lk s id).outcome = Outcome.pickup v)
    ∧ (∀ v, s.held = some v → readCell lk s.modified id = none →
        (clickCell lk s id).state.held = none
        ∧ readCell lk (clickCell lk s id).state.modified id = some v
        ∧ (clickCell lk s id).outcome = Outcome.place v)
    ∧ (∀ v, s.held = some v → readCell lk s.modified id = some v →
        (clickCell lk s id).state.held = none
        ∧ readCell lk (clickCell lk s id).state.modified id = some (2 * v)
        ∧ (clickCell lk s id).outcome = Outcome.merged (2 * v))
    ∧ (∀ v w, s.held = some v → readCell lk s.modified id = some w → v ≠ w →
        (clickCell lk s id).state.held = some w
        ∧ readCell lk (clickCell lk s id).state.modified id = some v
        ∧ (clickCell lk s id).outcome = Outcome.swapped v w
        ∧ ({(clickCell lk s id).state.held,
            readCell lk (clickCell lk s id).state.modified id} : Multiset (Option ℤ))
          = {s.held, readCell lk s.modified id}) := by
  rw [clickCell, if_pos hin]
  refine ⟨?_, ?_, ?_, ?_, ?_⟩
  · intro hheld hcur
    exact handleCellClick_nothing lk s id hheld hcur
  · intro v hheld hcur
    rw [handleCellClick_pickup lk s id v hheld hcur]
    exact ⟨rfl, readCell_writeCell_self lk s.modified id none, rfl⟩
  · intro v hheld hcur
    rw [handleCellClick_place lk s id v hheld hcur]
    exact ⟨rfl, readCell_writeCell_self lk s.modified id (some v), rfl⟩
  · intro v hheld hcur
    rw [handleCellClick_merge lk s id v hheld hcur]
    refine ⟨rfl, ?_, ?_⟩
    · rw [readCell_writeCell_self, mul_comm]
    · rw [mul_comm]
  · intro v w hheld hcur hne
    have hwv : w ≠ v := fun hw => hne hw.symm
    rw [handleCellClick_swap lk s id v w hheld hcur hwv]
    refine ⟨rfl, readCell_writeCell_self lk s.modified id (some v), rfl, ?_⟩
    rw [readCell_writeCell_self, hheld, hcur]
    exact Multiset.pair_comm (some w) (some v)

/-- C1 witness: a concrete in-range pickup. -/
theorem C1_transition_table_witness :
    (clickCell lk0 ⟨c00, none, [("0:0", some 7)], MovementMode.buttons⟩ c00).state.held = some 7
    ∧ readCell lk0
        (clickCell lk0 ⟨c00, none, [("0:0", some 7)], MovementMode.buttons⟩ c00).state.modified
        c00 = none
    ∧ (clickCell lk0 ⟨c00, none, [("0:0", some 7)], MovementMode.buttons⟩ c00).outcome
      = Outcome.pickup 7 :=
  (C1_transition_table lk0 ⟨c00, none, [("0:0", some 7)], MovementMode.buttons⟩ c00
    (by decide)).2.1 7 rfl (by decide)

/-- C2: a click on a cell strictly beyond the interaction radius is
rejected before the transition table runs: the state is unchanged and the
distinct too-far outcome is signalled. -/
theorem C2_range_rejection (lk : String → ℚ) (s : GameState) (id : CellID)
    (hfar : INTERACT_RANGE_STEPS * INTERACT_RANGE_STEPS < euclidStepsSq id s.playerCell) :
    clickCell lk s id = ⟨s, Outcome.tooFar, false⟩
    ∧ (clickCell lk s id).state.held = s.held
    ∧ readCell lk (clickCell lk s id).state.modified id = readCell lk s.modified id
    ∧ (clickCell lk s id).outcome = Outcome.tooFar := by
  have h : ¬ euclidStepsSq id s.playerCell ≤ INTERACT_RANGE_STEPS * INTERACT_RANGE_STEPS :=
    not_le.mpr hfar
  rw [clickCell, if_neg h]
  exact ⟨rfl, rfl, rfl, rfl⟩

/-- C2 witness: a click at squared distance 36 (> 25) is rejected. -/
theorem C2_range_rejection_witness :
    clickCell lk0 ⟨c00, some 1, [], MovementMode.buttons⟩ ⟨6, 0⟩
      = ⟨⟨c00, some 1, [], MovementMode.buttons⟩, Outcome.tooFar, false⟩ :=
  (C2_range_rejection lk0 ⟨c00, some 1, [], MovementMode.buttons⟩ ⟨6, 0⟩ (by decide)).1

/-- C3 counterexample: swapping while the target cell holds 32 leaves the
player holding 32 (at the win threshold) yet no win signal fires, because
the swap branch of `handleCellClick` never calls `checkWin`. -/
theorem C3_counterexample :
    (clickCell lk0 ⟨c00, some 1, [("0:0", some 32)], MovementMode.buttons⟩ c00).state.held
      = some 32
    ∧ WIN_VALUE ≤ 32
    ∧ (clickCell lk0 ⟨c00, some 1, [("0:0", some 32)], MovementMode.buttons⟩ c00).outcome
      = Outcome.swapped 1 32
    ∧ (clickCell lk0 ⟨c00, some 1, [("0:0", some 32)], MovementMode.buttons⟩ c00).winSignal
      = false := by
  decide

/-- C3 amended: only the pickup and merge branches invoke `checkWin`; merge
empties the hand before the check, so the win signal fires iff the outcome
is a pickup of a value at or above the threshold. -/
theorem C3_win_check_amended (lk : String → ℚ) (s : GameState) (id : CellID) :
    (clickCell lk s id).winSignal = true ↔
      ∃ v, (clickCell lk s id).outcome = Outcome.pickup v ∧ WIN_VALUE ≤ v := by
  unfold clickCell
  by_cases hin : euclidStepsSq id s.playerCell ≤ INTERACT_RANGE_STEPS * INTERACT_RANGE_STEPS
  · rw [if_pos hin]
    cases hheld : s.held with
    | none =>
      cases hcur : readCell lk s.modified id with
      | none => rw [handleCellClick_nothing lk s id hheld hcur]; simp
      | some cv => rw [handleCellClick_pickup lk s id cv hheld hcur]; simp [checkWin]
    | some v =>
      cases hcur : readCell lk s.modified id with
      | none => rw [handleCellClick_place lk s id v hheld hcur]; simp
      | some cv =>
        by_cases hcv : cv = v
        · subst hcv
          rw [handleCellClick_merge lk s id cv hheld hcur]
          simp [checkWin]
        · rw [handleCellClick_swap lk s id v cv hheld hcur hcv]
          simp
  · rw [if_neg hin]
    simp

/-! ### Event traces for the overlay invariant (C5)

The only call site of `writeCell` in main.ts is `handleCellClick`
(lines 442, 457, 467, 478); `drawGridToScreenEdges` (lines 369-433) and
`drawRangeCircle` only call `readCell` and build map layers, so a redraw
leaves the game state unchanged. -/

inductive Event
  | click (id : CellID)
  | view (ids : List CellID)

/-- One UI event: a click runs the range-gated interaction; a redraw of
some list of viewport cells reads through `readCell` only. -/
def stepEvent (lk : String → ℚ) (s : GameState) : Event → GameState
  | Event.click id => (clickCell lk s id).state
  | Event.view _ => s

def runEvents (lk : String → ℚ) (s : GameState) (es : List Event) : GameState :=
  es.foldl (stepEvent lk) s

/-- Whether an outcome is one of the four state-mutating table rows. -/
def mutating : Outcome → Bool
  | Outcome.pickup _ => true
  | Outcome.place _ => true
  | Outcome.merged _ => true
  | Outcome.swapped _ _ => true
  | Outcome.nothing => false
  | Outcome.tooFar => false

/-- The cells altered along a trace: targets of clicks whose outcome was
one of the state-mutating rows. -/
def alteredCells (lk : String → ℚ) : GameState → List Event → List CellID
  | _, [] => []
  | s, Event.click id :: rest =>
    (if mutating (clickCell lk s id).outcome then [id] else [])
      ++ alteredCells lk (clickCell lk s id).state rest
  | s, Event.view _ :: rest => alteredCells lk s rest

/-- The overlay's key list. -/
def keys {α : Type} (m : List (String × α)) : List String := m.map Prod.fst

lemma mapHas_iff_mem_keys (m : Overlay) (k : String) : mapHas m k = true ↔ k ∈ keys m := by
  induction m with
  | nil => simp [mapHas, mapGet?, keys]
  | cons p rest ih =>
    obtain ⟨k', v'⟩ := p
    by_cases h : k' = k
    · simp [mapHas, mapGet?, keys, h]
    · simp only [mapHas, mapGet?, if_neg h, keys, List.map_cons, List.mem_cons]
      rw [← keys]
      rw [mapHas] at ih
      rw [ih]
      constructor
      · exact Or.inr
      · rintro (hk | hk)
        · exact absurd hk.symm h
        · exact hk

lemma keys_mapSet (m : Overlay) (k : String) (v : Option ℤ) :
    keys (mapSet m k v) = if mapHas m k then keys m else keys m ++ [k] := by
  induction m with
  | nil => simp [mapSet, mapHas, mapGet?, keys]
  | cons p rest ih =>
    obtain ⟨k', v'⟩ := p
    by_cases h : k' = k
    · subst h
      simp [mapSet, mapHas, mapGet?, keys]
    · simp only [mapSet, if_neg h, mapHas, mapGet?, keys, List.map_cons]
      rw [← keys, ← keys, ih, mapHas]
      by_cases hh : (mapGet? rest k).isSome
      · rw [if_pos hh, if_pos hh]
      · rw [if_neg hh, if_neg hh]
        simp

lemma mem_keys_mapSet (m : Overlay) (k k2 : String) (v : Option ℤ) :
    k2 ∈ keys (mapSet m k v) ↔ k2 ∈ keys m ∨ k2 = k := by
  rw [keys_mapSet]
  by_cases h : mapHas m k
  · rw [if_pos h]
    constructor
    · exact Or.inl
    · rintro (hk | hk)
      · exact hk
      · exact hk ▸ (mapHas_iff_mem_keys m k).mp h
  · rw [if_neg h]
    simp

lemma nodup_keys_mapSet (m : Overlay) (k : String) (v : Option ℤ)
    (h : (keys m).Nodup) : (keys (mapSet m k v)).Nodup := by
  rw [keys_mapSet]
  by_cases hh : mapHas m k
  · rw [if_pos hh]; exact h
  · rw [if_neg hh]
    have : k ∉ keys m := fun hk => hh ((mapHas_iff_mem_keys m k).mpr hk)
    simp [List.nodup_append, h, this]

/-- Where the overlay goes on a click: a mutating outcome writes exactly
the target cell's key; a non-mutating one leaves the overlay alone. -/
lemma clickCell_modified_cases (lk : String → ℚ) (s : GameState) (id : CellID) :
    (mutating (clickCell lk s id).outcome = true
      ∧ ∃ v, (clickCell lk s id).state.modified = mapSet s.modified (cellKey id) v)
    ∨ (mutating (clickCell lk s id).outcome = false
      ∧ (clickCell lk s id).state.modified = s.modified) := by
  unfold clickCell
  by_cases hin : euclidStepsSq id s.playerCell ≤ INTERACT_RANGE_STEPS * INTERACT_RANGE_STEPS
  · rw [if_pos hin]
    cases hheld : s.held with
    | none =>
      cases hcur : readCell lk s.modified id with
      | none =>
        rw [handleCellClick_nothing lk s id hheld hcur]
        exact Or.inr ⟨rfl, rfl⟩
      | some cv =>
        rw [handleCellClick_pickup lk s id cv hheld hcur]
        exact Or.inl ⟨rfl, none, rfl⟩
    | some v =>
      cases hcur : readCell lk s.modified id with
      | none =>
        rw [handleCellClick_place lk s id v hheld hcur]
        exact Or.inl ⟨rfl, some v, rfl⟩
      | some cv =>
        by_cases hcv : cv = v
        · subst hcv
          rw [handleCellClick_merge lk s id cv hheld hcur]
          exact Or.inl ⟨rfl, some (cv * 2), rfl⟩
        · rw [handleCellClick_swap lk s id v cv hheld hcur hcv]
          exact Or.inl ⟨rfl, some v, rfl⟩
  · rw [if_neg hin]
    exact Or.inr ⟨rfl, rfl⟩

lemma mem_keys_runEvents (lk : String → ℚ) (es : List Event) :
    ∀ (s : GameState) (k : String),
      k ∈ keys (runEvents lk s es).modified ↔
        k ∈ keys s.modified ∨ k ∈ (alteredCells lk s es).map cellKey := by
  induction es with
  | nil => intro s k; simp [runEvents, alteredCells]
  | cons e rest ih =>
    intro s k
    cases e with
    | view ids =>
      show k ∈ keys (runEvents lk s rest).modified ↔ _
      rw [ih s k]
      rfl
    | click id =>
      show k ∈ keys (runEvents lk (clickCell lk s id).state rest).modified ↔ _
      rw [ih (clickCell lk s id).state k]
      rcases clickCell_modified_cases lk s id with ⟨hmut, v, hmod⟩ | ⟨hmut, hmod⟩
      · rw [hmod, mem_keys_mapSet]
        show _ ↔ _ ∨ k ∈ ((if mutating (clickCell lk s id).outcome then [id] else [])
          ++ alteredCells lk (clickCell lk s id).state rest).map cellKey
        rw [hmut]
        have hif : (if true = true then [id] else []) = [id] := rfl
        rw [hif, List.singleton_append]
        simp only [List.map_cons, List.mem_cons]
        tauto
      · rw [hmod]
        show _ ↔ _ ∨ k ∈ ((if mutating (clickCell lk s id).outcome then [id] else [])
          ++ alteredCells lk (clickCell lk s id).state rest).map cellKey
        rw [hmut]
        have hif : (if false = true then [id] else []) = ([] : List CellID) := rfl
        rw [hif, List.nil_append]

lemma nodup_keys_runEvents (lk : String → ℚ) (es : List Event) :
    ∀ s : GameState, (keys s.modified).Nodup → (keys (runEvents lk s es).modified).Nodup := by
  induction es with
  | nil => intro s h; exact h
  | cons e rest ih =>
    intro s h
    cases e with
    | view ids => exact ih s h
    | click id =>
      show (keys (runEvents lk (clickCell lk s id).state rest).modified).Nodup
      apply ih
      rcases clickCell_modified_cases lk s id with ⟨_, v, hmod⟩ | ⟨_, hmod⟩
      · rw [hmod]; exact nodup_keys_mapSet _ _ _ h
      · rw [hmod]; exact h

/-! #### Positive values: every value in play is positive, so each of the
four mutating outcomes really changes the target cell's readable value. -/

/-- An optional value that is positive when present. -/
def posVal (o : Option ℤ) : Prop := ∀ v, o = some v → 0 < v

/-- All values in play (the hand and every overlay entry) are positive. -/
def posGame (s : GameState) : Prop :=
  posVal s.held ∧ ∀ p ∈ s.modified, posVal p.2

lemma posVal_none : posVal none := by
  intro v h
  cases h

lemma posVal_some (w : ℤ) (hw : 0 < w) : posVal (some w) := by
  intro v h
  simp only [Option.some.injEq] at h
  omega

lemma initialTokenValue_pos (lk : String → ℚ) (c : CellID) : posVal (initialTokenValue lk c) := by
  intro v h
  unfold initialTokenValue at h
  dsimp only at h
  split_ifs at h <;> simp_all <;> omega

lemma mapGet?_mem (m : Overlay) (k : String) (w : Option ℤ) (h : mapGet? m k = some w) :
    (k, w) ∈ m := by
  induction m with
  | nil => simp [mapGet?] at h
  | cons p rest ih =>
    obtain ⟨k', v'⟩ := p
    by_cases hk : k' = k
    · subst hk
      rw [mapGet?, if_pos rfl] at h
      simp only [Option.some.injEq] at h
      subst h
      exact List.mem_cons_self _ _
    · rw [mapGet?, if_neg hk] at h
      exact List.mem_cons_of_mem _ (ih h)

lemma readCell_pos (lk : String → ℚ) (m : Overlay) (c : CellID)
    (hm : ∀ p ∈ m, posVal p.2) : posVal (readCell lk m c) := by
  intro v h
  unfold readCell at h
  cases hget : mapGet? m (cellKey c) with
  | none =>
    rw [hget] at h
    exact initialTokenValue_pos lk c v h
  | some w =>
    rw [hget] at h
    exact hm (cellKey c, w) (mapGet?_mem m (cellKey c) w hget) v h

lemma mapSet_mem_cases (m : Overlay) (k : String) (v : Option ℤ) :
    ∀ p ∈ mapSet m k v, p = (k, v) ∨ p ∈ m := by
  induction m with
  | nil => simp [mapSet]
  | cons q rest ih =>
    obtain ⟨k', v'⟩ := q
    intro p hp
    by_cases hk : k' = k
    · subst hk
      rw [mapSet, if_pos rfl] at hp
      rcases List.mem_cons.mp hp with h | h
      · exact Or.inl h
      · exact Or.inr (List.mem_cons_of_mem _ h)
    · rw [mapSet, if_neg hk] at hp
      rcases List.mem_cons.mp hp with h | h
      · exact Or.inr (h ▸ List.mem_cons_self _ _)
      · rcases ih p h with h2 | h2
        · exact Or.inl h2
        · exact Or.inr (List.mem_cons_of_mem _ h2)

lemma writeCell_pos (m : Overlay) (c : CellID) (v : Option ℤ)
    (hm : ∀ p ∈ m, posVal p.2) (hv : posVal v) :
    ∀ p ∈ writeCell m c v, posVal p.2 := by
  intro p hp
  rcases mapSet_mem_cases m (cellKey c) v p hp with h | h
  · rw [h]; exact hv
  · exact hm p h

lemma clickCell_pos (lk : String → ℚ) (s : GameState) (id : CellID)
    (hs : posGame s) : posGame (clickCell lk s id).state := by
  obtain ⟨hheldPos, hmodPos⟩ := hs
  unfold clickCell
  by_cases hin : euclidStepsSq id s.playerCell ≤ INTERACT_RANGE_STEPS * INTERACT_RANGE_STEPS
  · rw [if_pos hin]
    cases hheld : s.held with
    | none =>
      cases hcur : readCell lk s.modified id with
      | none =>
        rw [handleCellClick_nothing lk s id hheld hcur]
        exact ⟨hheldPos, hmodPos⟩
      | some cv =>
        rw [handleCellClick_pickup lk s id cv hheld hcur]
        refine ⟨?_, writeCell_pos s.modified id none hmodPos posVal_none⟩
        have hcv : 0 < cv := readCell_pos lk s.modified id hmodPos cv hcur
        exact posVal_some cv hcv
    | some v =>
      have hv : 0 < v := hheldPos v hheld
      cases hcur : readCell lk s.modified id with
      | none =>
        rw [handleCellClick_place lk s id v hheld hcur]
        exact ⟨posVal_none, writeCell_pos s.modified id (some v) hmodPos (posVal_some v hv)⟩
      | some cv =>
        by_cases hcv : cv = v
        · subst hcv
          rw [handleCellClick_merge lk s id cv hheld hcur]
          exact ⟨posVal_none,
            writeCell_pos s.modified id (some (cv * 2)) hmodPos (posVal_some _ (by omega))⟩
        · rw [handleCellClick_swap lk s id v cv hheld hcur hcv]
          have hcvPos : 0 < cv := readCell_pos lk s.modified id hmodPos cv hcur
          exact ⟨posVal_some cv hcvPos,
            writeCell_pos s.modified id (some v) hmodPos (posVal_some v hv)⟩
  · rw [if_neg hin]
    exact ⟨hheldPos, hmodPos⟩

lemma runEvents_pos (lk : String → ℚ) (es : List Event) :
    ∀ s : GameState, posGame s → posGame (runEvents lk s es) := by
  induction es with
  | nil => intro s h; exact h
  | cons e rest ih =>
    intro s h
    cases e with
    | view ids => exact ih s h
    | click id => exact ih (clickCell lk s id).state (clickCell_pos lk s id h)

lemma clickCell_mutating_changes (lk : String → ℚ) (s : GameState) (id : CellID)
    (hs : posGame s) (hmut : mutating (clickCell lk s id).outcome = true) :
    readCell lk (clickCell lk s id).state.modified id ≠ readCell lk s.modified id := by
  obtain ⟨hheldPos, _⟩ := hs
  unfold clickCell at hmut ⊢
  by_cases hin : euclidStepsSq id s.playerCell ≤ INTERACT_RANGE_STEPS * INTERACT_RANGE_STEPS
  · rw [if_pos hin] at hmut ⊢
    cases hheld : s.held with
    | none =>
      cases hcur : readCell lk s.modified id with
      | none =>
        rw [handleCellClick_nothing lk s id hheld hcur] at hmut
        exact absurd hmut (by simp [mutating])
      | some cv =>
        simp only [handleCellClick_pickup lk s id cv hheld hcur, readCell_writeCell_self, hcur]
        simp
    | some v =>
      have hv : 0 < v := hheldPos v hheld
      cases hcur : readCell lk s.modified id with
      | none =>
        simp only [handleCellClick_place lk s id v hheld hcur, readCell_writeCell_self, hcur]
        simp
      | some cv =>
        by_cases hcv : cv = v
        · subst hcv
          simp only [handleCellClick_merge lk s id cv hheld hcur, readCell_writeCell_self, hcur]
          intro h
          simp only [Option.some.injEq] at h
          omega
        · simp only [handleCellClick_swap lk s id v cv hheld hcur hcv,
            readCell_writeCell_self, hcur]
          intro h
          simp only [Option.some.injEq] at h
          exact hcv h.symm
  · rw [if_neg hin] at hmut
    exact absurd hmut (by simp [mutating])

lemma cellKey_function_injective : Function.Injective cellKey :=
  fun a b h => cellKey_injective a b h

lemma length_runEvents_empty (lk : String → ℚ) (s : GameState) (es : List Event)
    (hempty : s.modified = []) :
    (runEvents lk s es).modified.length = (alteredCells lk s es).dedup.length := by
  have hnodup : (keys (runEvents lk s es).modified).Nodup := by
    apply nodup_keys_runEvents
    rw [hempty]
    exact List.nodup_nil
  have hmem : ∀ k, k ∈ keys (runEvents lk s es).modified ↔
      k ∈ ((alteredCells lk s es).map cellKey).dedup := by
    intro k
    rw [mem_keys_runEvents lk es s k, hempty, List.mem_dedup]
    simp [keys]
  have hperm : List.Perm (keys (runEvents lk s es).modified)
      ((alteredCells lk s es).map cellKey).dedup :=
    (List.perm_ext_iff_of_nodup hnodup (List.nodup_dedup _)).mpr hmem
  have hlen1 : (runEvents lk s es).modified.length = (keys (runEvents lk s es).modified).length :=
    (List.length_map _ _).symm
  rw [hlen1, hperm.length_eq, List.dedup_map_of_injective cellKey_function_injective,
    List.length_map]

/-- C5: the overlay contains a key iff some interaction along the trace had
a state-mutating outcome on that cell; redraws (which only read) never add
entries; from an empty overlay, the overlay size equals the number of
distinct altered cells; and on positive states each mutating outcome really
changes the target cell's readable value (positivity is preserved by every
trace). -/
theorem C5_overlay_tracks_activity (lk : String → ℚ) (s : GameState) (es : List Event) :
    (∀ k, k ∈ keys (runEvents lk s es).modified ↔
        k ∈ keys s.modified ∨ k ∈ (alteredCells lk s es).map cellKey)
    ∧ ((keys s.modified).Nodup → (keys (runEvents lk s es).modified).Nodup)
    ∧ (s.modified = [] →
        (runEvents lk s es).modified.length = (alteredCells lk s es).dedup.length)
    ∧ (∀ id, posGame s → mutating (clickCell lk s id).outcome = true →
        readCell lk (clickCell lk s id).state.modified id ≠ readCell lk s.modified id)
    ∧ (posGame s → posGame (runEvents lk s es)) :=
  ⟨mem_keys_runEvents lk es s,
    nodup_keys_runEvents lk es s,
    length_runEvents_empty lk s es,
    fun id hpos hmut => clickCell_mutating_changes lk s id hpos hmut,
    runEvents_pos lk es s⟩

/-- C5 witness: from an empty overlay, a trace with two redraws and one
mutating click leaves exactly one overlay entry; a concrete swap changes the
cell's readable value. -/
theorem C5_overlay_tracks_activity_witness :
    ((runEvents lk0 ⟨c00, none, [], MovementMode.buttons⟩
        [Event.view [c00, ⟨1, 1⟩], Event.click c00, Event.view [c00]]).modified.length
      = (alteredCells lk0 ⟨c00, none, [], MovementMode.buttons⟩
        [Event.view [c00, ⟨1, 1⟩], Event.click c00, Event.view [c00]]).dedup.length)
    ∧ readCell lk0 (clickCell lk0 ⟨c00, some 1, [("0:0", some 2)], MovementMode.buttons⟩
        c00).state.modified c00
      ≠ readCell lk0 (⟨c00, some 1, [("0:0", some 2)], MovementMode.buttons⟩
        : GameState).modified c00 :=
  ⟨(C5_overlay_tracks_activity lk0 ⟨c00, none, [], MovementMode.buttons⟩
      [Event.view [c00, ⟨1, 1⟩], Event.click c00, Event.view [c00]]).2.2.1 rfl,
    (C5_overlay_tracks_activity lk0 ⟨c00, some 1, [("0:0", some 2)], MovementMode.buttons⟩
      []).2.2.2.1 c00
      ⟨by intro v h; simp only [Option.some.injEq] at h; omega,
        by
          intro p hp
          simp only [List.mem_singleton] at hp
          intro v h
          rw [hp] at h
          simp only [Option.some.injEq] at h
          omega⟩
      (by decide)⟩

/-! ### C8: range of `hash01`

The source's doc comment (line 8) reads "Deterministic FNV-1a hash mapped
to [0,1)", but line 15 divides by `0xffffffff = 2^32 - 1` rather than
`2^32`, so any input whose final 32-bit FNV-1a state is `0xffffffff` maps
to exactly 1.  The ASCII string "yCXcFk" is such an input (the float
division `4294967295 / 4294967295` is exact, so the JS result is exactly
`1.0` there). -/

lemma fnvHash_lt (s : String) : fnvHash s < UINT32_MOD := by
  unfold fnvHash
  have h0 : (2166136261 : ℕ) < UINT32_MOD := by norm_num [UINT32_MOD]
  generalize (2166136261 : ℕ) = a at h0
  induction s.data generalizing a with
  | nil => exact h0
  | cons ch rest ih =>
    rw [List.foldl_cons]
    apply ih
    unfold fnvStep
    exact Nat.mod_lt _ (by norm_num [UINT32_MOD])

/-- C8: `hash01` is a pure function with range inside `[0, 1]`; the input
"yCXcFk" drives the FNV-1a state to `0xffffffff`, so `hash01` returns
exactly `1` there, escaping the documented half-open interval `[0, 1)`. -/
theorem C8_hash01_attains_one :
    (∀ s : String, 0 ≤ hash01 s ∧ hash01 s ≤ 1)
    ∧ fnvHash "yCXcFk" = 4294967295
    ∧ hash01 "yCXcFk" = 1 := by
  refine ⟨?_, by decide, ?_⟩
  · intro s
    unfold hash01
    constructor
    · apply div_nonneg
      · exact_mod_cast Nat.zero_le _
      · norm_num
    · rw [div_le_one (by norm_num)]
      have := fnvHash_lt s
      have hle : fnvHash s ≤ 4294967295 := by
        unfold UINT32_MOD at this
        omega
      exact_mod_cast hle
  · unfold hash01
    have h : fnvHash "yCXcFk" = 4294967295 := by decide
    rw [h]
    norm_num

/-! ### Persistence (main.ts lines 486-539)

`saveGameState` serialises `{playerCell, held ?? null, movementMode,
modified-as-object}` with `JSON.stringify`; `loadGameState` parses and
adopts the fields one by one.  `JSON.stringify`/`JSON.parse` is the
identity at the level of the parsed value, so we model the payload as a
JSON value.  (JS objects reorder integer-like keys ahead of the others;
every overlay key contains `':'`, so insertion order is preserved for the
states the game saves — the round-trip theorem records this through its
key-shape hypothesis.) -/

inductive JValue
  | jnull
  | jbool (b : Bool)
  | jnum (n : ℤ)
  | jstr (s : String)
  | jobj (fields : List (String × JValue))

/-- The runtime fields captured by persistence, with `held` and overlay
values kept at the JS-value level (`loadGameState` performs no type
validation on them). -/
structure StoredView where
  playerCell : CellID
  held : Option JValue
  modified : List (String × Option JValue)
  movementMode : MovementMode

/-- JS truthiness of a possibly-absent (`undefined` = `none`) value; the
loader's payloads contain no `NaN`, so a number is falsy iff it is 0. -/
def jsTruthy : Option JValue → Bool
  | none => false
  | some JValue.jnull => false
  | some (JValue.jbool b) => b
  | some (JValue.jnum n) => decide (n ≠ 0)
  | some (JValue.jstr s) => decide (s ≠ "")
  | some (JValue.jobj _) => true

/-- First-match association lookup (parsed JSON objects have unique keys). -/
def jlookup : List (String × JValue) → String → Option JValue
  | [], _ => none
  | (k, v) :: rest, f => if k = f then some v else jlookup rest f

/-- JS property access `x.f` for the identifier-named fields the loader
reads (`playerCell`, `held`, `modified`, `movementMode`, `i`, `j`):
objects look the field up; string/number/boolean primitives have no own
property of these names, giving `undefined`; access on `null` throws and
is handled at the `loadGameState` level. -/
def jsGetField : JValue → String → Option JValue
  | JValue.jobj fields, f => jlookup fields f
  | _, _ => none

/-- `Object.entries` for the truthy values that reach it in the loader:
an object's own fields, or a string's index/character pairs; numbers and
booleans have no own enumerable properties. -/
def jsEntries : JValue → List (String × JValue)
  | JValue.jobj fields => fields
  | JValue.jstr s => s.data.enum.map fun p => (Nat.repr p.1, JValue.jstr (String.mk [p.2]))
  | _ => []

/-- `v ?? undefined` as used for `held` and the overlay entries. -/
def jsNullToUndef : JValue → Option JValue
  | JValue.jnull => none
  | v => some v

/-- `saveGameState` (main.ts lines 494-508): the object handed to
`JSON.stringify`; `held ?? null` and `v ?? null` store `null` for
`undefined`. -/
def saveGameState (s : StoredView) : JValue :=
  JValue.jobj
    [("playerCell", JValue.jobj
        [("i", JValue.jnum s.playerCell.i), ("j", JValue.jnum s.playerCell.j)]),
     ("held", s.held.getD JValue.jnull),
     ("movementMode", JValue.jstr (match s.movementMode with
        | MovementMode.buttons => "buttons"
        | MovementMode.geolocation => "geolocation")),
     ("modified", JValue.jobj (s.modified.map fun p => (p.1, p.2.getD JValue.jnull)))]

/-- `loadGameState` (main.ts lines 510-539) applied to an already-parsed
payload.  `none` models a missing or falsy raw string, or a `JSON.parse`
that threw — the `catch` keeps the prior state; a `null` payload throws on
the first member access, before any field is assigned, and the `catch`
again keeps the prior state.  Otherwise the fields are adopted one by one:
there is no all-or-nothing validation — `playerCell` is kept only when
well-typed, while `held`, the overlay and `movementMode` are taken from
whatever the payload holds (`Object.entries` of a truthy non-object
`modified` yields its index/character pairs). -/
def loadGameState (parsed : Option JValue) (s : StoredView) : StoredView :=
  match parsed with
  | none => s
  | some JValue.jnull => s
  | some j =>
    let pcField := jsGetField j "playerCell"
    let newPlayerCell : CellID :=
      if jsTruthy pcField then
        match pcField with
        | some pc =>
          match jsGetField pc "i", jsGetField pc "j" with
          | some (JValue.jnum vi), some (JValue.jnum vj) => ⟨vi, vj⟩
          | _, _ => s.playerCell
        | none => s.playerCell
      else s.playerCell
    let newHeld : Option JValue :=
      match jsGetField j "held" with
      | some v => jsNullToUndef v
      | none => none
    let modField := jsGetField j "modified"
    let newModified : List (String × Option JValue) :=
      if jsTruthy modField then
        match modField with
        | some mv =>
          (jsEntries mv).foldl (fun acc p => mapSet acc p.1 (jsNullToUndef p.2)) []
        | none => []
      else []
    let newMode : MovementMode :=
      match jsGetField j "movementMode" with
      | some (JValue.jstr "geolocation") => MovementMode.geolocation
      | _ => MovementMode.buttons
    ⟨newPlayerCell, newHeld, newModified, newMode⟩

/-- A well-typed runtime `GameState` viewed at the JS level. -/
def toStored (s : GameState) : StoredView :=
  ⟨s.playerCell, s.held.map JValue.jnum,
    s.modified.map fun p => (p.1, p.2.map JValue.jnum), s.movementMode⟩

lemma mapSet_fresh {α : Type} (m : List (String × α)) (k : String) (v : α)
    (h : k ∉ keys m) : mapSet m k v = m ++ [(k, v)] := by
  induction m with
  | nil => rfl
  | cons q rest ih =>
    obtain ⟨k', v'⟩ := q
    have hk : k' ≠ k := by
      intro he
      exact h (by simp [keys, he])
    simp only [mapSet, if_neg hk, List.cons_append, List.cons.injEq, true_and]
    exact ih (fun hmem => h (by simp [keys] at hmem ⊢; exact Or.inr hmem))

lemma jsNullToUndef_jnull : jsNullToUndef JValue.jnull = none := rfl

lemma jsNullToUndef_jnum (n : ℤ) : jsNullToUndef (JValue.jnum n) = some (JValue.jnum n) := rfl

/-- Loading back the saved overlay object rebuilds the same association
list, entry by entry, as long as the keys are distinct and no stored value
is a literal `null` wrapped in `some` (the game stores `null` only for
`undefined`). -/
lemma load_modified_round_aux (lv : List (String × Option JValue)) :
    ∀ acc : List (String × Option JValue),
      (∀ x ∈ keys acc, x ∉ keys lv) → (keys lv).Nodup →
      (∀ q ∈ lv, q.2 ≠ some JValue.jnull) →
      ((lv.map fun p => (p.1, p.2.getD JValue.jnull)).foldl
        (fun acc2 p => mapSet acc2 p.1 (jsNullToUndef p.2)) acc)
      = acc ++ lv := by
  induction lv with
  | nil => intro acc _ _ _; simp
  | cons q rest ih =>
    obtain ⟨k, v⟩ := q
    intro acc hdisj hnodup hnn
    simp only [List.map_cons, List.foldl_cons]
    have hj : jsNullToUndef (v.getD JValue.jnull) = v := by
      cases v with
      | none => rfl
      | some w =>
        cases w with
        | jnull => exact absurd rfl (hnn (k, some JValue.jnull) (List.mem_cons_self _ _))
        | jbool b => rfl
        | jnum n => rfl
        | jstr s => rfl
        | jobj fs => rfl
    rw [hj]
    have hkacc : k ∉ keys acc := fun hmem => hdisj k hmem (by simp [keys])
    rw [mapSet_fresh acc k _ hkacc]
    have hnodup' : (keys rest).Nodup ∧ k ∉ keys rest := by
      have h2 := hnodup
      simp only [keys, List.map_cons, List.nodup_cons] at h2
      exact ⟨h2.2, h2.1⟩
    rw [ih (acc ++ [(k, v)]) ?_ hnodup'.1 (fun q hq => hnn q (List.mem_cons_of_mem _ hq))]
    · simp
    · intro x hx
      simp only [keys, List.map_append, List.mem_append, List.map_cons, List.map_nil,
        List.mem_singleton] at hx
      rcases hx with hx | hx
      · intro hmem
        apply hdisj x hx
        simp only [keys, List.map_cons, List.mem_cons]
        exact Or.inr hmem
      · rw [hx]
        exact hnodup'.2

/-- C6: for a well-typed state whose overlay keys are cell keys (as in
every reachable state) and distinct (a `Map` invariant), loading what was
saved reproduces the state exactly, whatever state the loader started
from. -/
theorem C6_persistence_round_trip (s : GameState) (p : StoredView)
    (hkeys : ∀ k ∈ keys s.modified, ∃ c : CellID, k = cellKey c)
    (hnodup : (keys s.modified).Nodup) :
    loadGameState (some (saveGameState (toStored s))) p = toStored s := by
  obtain ⟨pc, held, modified, mode⟩ := s
  have hkeq : keys (modified.map fun p => (p.1, Option.map JValue.jnum p.2)) = keys modified := by
    simp only [keys, List.map_map]
    rfl
  have hnn : ∀ q ∈ (modified.map fun p => (p.1, Option.map JValue.jnum p.2)),
      q.2 ≠ some JValue.jnull := by
    intro q hq
    rcases List.mem_map.mp hq with ⟨r, _, hr⟩
    rw [← hr]
    cases r.2 <;> simp
  have hmod := load_modified_round_aux (modified.map fun p => (p.1, Option.map JValue.jnum p.2))
    [] (by simp [keys]) (by rw [hkeq]; exact hnodup) hnn
  rw [List.nil_append] at hmod
  have hmod2 : List.foldl (fun acc p => mapSet acc p.1 (jsNullToUndef p.2)) []
      (List.map ((fun p => (p.1, p.2.getD JValue.jnull))
        ∘ fun p => (p.1, Option.map JValue.jnum p.2)) modified)
      = List.map (fun p => (p.1, Option.map JValue.jnum p.2)) modified := by
    rw [← List.map_map]
    exact hmod
  cases held <;> cases mode <;>
    simp [loadGameState, saveGameState, toStored, jsGetField, jlookup, jsTruthy,
      jsEntries, jsNullToUndef_jnull, jsNullToUndef_jnum, hmod2]

/-- C6 witness: a concrete state with a picked-up (empty) cell, a held
token and geolocation mode survives the round trip from an unrelated prior
state. -/
theorem C6_persistence_round_trip_witness :
    loadGameState (some (saveGameState (toStored
      ⟨⟨2, 3⟩, some 4, [("0:0", some 2), ("1:1", none)], MovementMode.geolocation⟩)))
      ⟨⟨9, 9⟩, none, [], MovementMode.buttons⟩
    = toStored ⟨⟨2, 3⟩, some 4, [("0:0", some 2), ("1:1", none)], MovementMode.geolocation⟩ :=
  C6_persistence_round_trip
    ⟨⟨2, 3⟩, some 4, [("0:0", some 2), ("1:1", none)], MovementMode.geolocation⟩
    ⟨⟨9, 9⟩, none, [], MovementMode.buttons⟩
    (by
      intro k hk
      simp only [keys, List.map_cons, List.map_nil, List.mem_cons,
        List.not_mem_nil, or_false] at hk
      rcases hk with h | h
      · exact ⟨⟨0, 0⟩, by rw [h]; decide⟩
      · exact ⟨⟨1, 1⟩, by rw [h]; decide⟩)
    (by decide)

/-! ### C7: malformed persisted data (spec scenario 6)

`loadGameState` only catches exceptions; its field checks are per-field.
For the stored payload `{"modified": "not-an-object"}` the string is
truthy, so `Object.entries` enumerates its 13 index/character pairs and
the overlay is repopulated with `"0" -> "n"`, `"1" -> "o"`, … instead of
being left at the default empty overlay: the snapshot is not validated
all-or-nothing, and the result is not the default initial state. -/

/-- `latLngToCell(CLASSROOM_LATLNG)` (main.ts lines 75-78, 125-130):
`floor(36.997936938057016 / 1e-4) = 369979` and
`floor(-122.05703507501151 / 1e-4) = -1220571`. -/
def CLASSROOM_CELL : CellID := ⟨369979, -1220571⟩

/-- The default boot state: classroom cell, empty hand, empty overlay,
button movement. -/
def defaultStored : StoredView := ⟨CLASSROOM_CELL, none, [], MovementMode.buttons⟩

/-- C7 (code bug): loading `{"modified": "not-an-object"}` succeeds and
repopulates the overlay with the string's 13 index/character entries
(`"0" -> "n"`, …) rather than yielding the default empty overlay — the
loader is per-field, not all-or-nothing; a parse failure or missing key
(`none`) does leave the prior default state intact. -/
theorem C7_malformed_payload_partially_applied :
    ((loadGameState (some (JValue.jobj [("modified", JValue.jstr "not-an-object")]))
        defaultStored).modified.length = 13)
    ∧ ((loadGameState (some (JValue.jobj [("modified", JValue.jstr "not-an-object")]))
        defaultStored).modified.length ≠ defaultStored.modified.length)
    ∧ (mapGet? (loadGameState (some (JValue.jobj [("modified", JValue.jstr "not-an-object")]))
        defaultStored).modified "0" = some (some (JValue.jstr "n")))
    ∧ loadGameState none defaultStored = defaultStored :=
  ⟨by decide, by decide, rfl, rfl⟩

/-! ### Geolocation movement facade (main.ts lines 211-344, 541-552)

`navigator.geolocation.watchPosition` registers a callback and returns a
watch id; `clearWatch(id)` deregisters it.  The browser side is modelled
as the list of currently registered watch ids plus a fresh-id counter; a
position-update event carries the id of the watch whose callback fires
and has an effect only while that watch is registered. -/

structure GeoState where
  movementMode : MovementMode
  geoWatchId : Option ℕ
  hasGeolocation : Bool
  nextWatchId : ℕ
  activeWatches : List ℕ
  playerCell : CellID
deriving DecidableEq

/-- `startGeolocation` (main.ts lines 267-307): flashes and returns when
the API is unavailable, returns when a watch is already registered
(line 272), otherwise registers a new watch and records its id. -/
def startGeolocation (s : GeoState) : GeoState :=
  if s.hasGeolocation = false then s
  else if s.geoWatchId ≠ none then s
  else { s with geoWatchId := some s.nextWatchId,
                activeWatches := s.activeWatches ++ [s.nextWatchId],
                nextWatchId := s.nextWatchId + 1 }

/-- `stopGeolocation` (main.ts lines 310-315): clears the recorded watch
and resets the id to null. -/
def stopGeolocation (s : GeoState) : GeoState :=
  match s.geoWatchId with
  | some w =>
    { s with
      activeWatches := s.activeWatches.filter (fun x => x ≠ w),
      geoWatchId := none }
  | none => s

/-- `setMovementMode` (main.ts lines 322-344): early return on an equal
mode; otherwise tear down the old geolocation feed, switch, and start the
new feed when entering geolocation.  Button enabling and labels are
UI-only and not modelled. -/
def setMovementMode (s : GeoState) (mode : MovementMode) : GeoState :=
  if s.movementMode = mode then s
  else
    let s1 := if s.movementMode = MovementMode.geolocation then stopGeolocation s else s
    let s2 := { s1 with movementMode := mode }
    if mode = MovementMode.geolocation then startGeolocation s2 else s2

/-- `resetGameState` (main.ts lines 541-552) restricted to the movement
fields: it assigns `movementMode = "buttons"` directly (line 546) and then
calls `setMovementMode("buttons")` (line 550), which returns immediately
because the mode already matches, so `stopGeolocation` is never invoked.
(The overlay/held clearing concerns `GameState` and has no effect here.) -/
def resetGameState (s : GeoState) : GeoState :=
  let s1 := { s with movementMode := MovementMode.buttons, playerCell := CLASSROOM_CELL }
  setMovementMode s1 MovementMode.buttons

/-- A position fix delivered by the browser for watch `w`: the registered
success callback (main.ts lines 275-296) recomputes `playerCell`; a
cleared watch no longer fires. -/
def posUpdate (s : GeoState) (w : ℕ) (c : CellID) : GeoState :=
  if w ∈ s.activeWatches then { s with playerCell := c } else s

inductive GEvent
  | setMode (m : MovementMode)
  | reset
  | pos (w : ℕ) (c : CellID)
deriving DecidableEq

def gstep (s : GeoState) : GEvent → GeoState
  | GEvent.setMode m => setMovementMode s m
  | GEvent.reset => resetGameState s
  | GEvent.pos w c => posUpdate s w c

def grun (s : GeoState) (es : List GEvent) : GeoState := es.foldl gstep s

/-- The watch invariant: the browser's registered watches are exactly the
one recorded in `geoWatchId` — none, or a single one. -/
def WatchInv (s : GeoState) : Prop :=
  (s.geoWatchId = none ∧ s.activeWatches = [])
  ∨ (∃ w, s.geoWatchId = some w ∧ s.activeWatches = [w])

lemma startGeolocation_of_some (s : GeoState) (h : s.geoWatchId ≠ none) :
    startGeolocation s = s := by
  unfold startGeolocation
  by_cases hg : s.hasGeolocation = false
  · rw [if_pos hg]
  · rw [if_neg hg, if_pos h]

lemma WatchInv_start (s : GeoState) (h : WatchInv s) : WatchInv (startGeolocation s) := by
  unfold startGeolocation
  by_cases hg : s.hasGeolocation = false
  · rw [if_pos hg]; exact h
  · rw [if_neg hg]
    by_cases hid : s.geoWatchId ≠ none
    · rw [if_pos hid]; exact h
    · rw [if_neg hid]
      rcases h with ⟨_, hw⟩ | ⟨w, hw, _⟩
      · exact Or.inr ⟨s.nextWatchId, rfl, by rw [hw]; rfl⟩
      · rw [hw] at hid
        exact absurd (by simp) hid

lemma WatchInv_stop (s : GeoState) (h : WatchInv s) :
    (stopGeolocation s).geoWatchId = none ∧ (stopGeolocation s).activeWatches = [] := by
  rcases h with ⟨hid, hw⟩ | ⟨w, hid, hw⟩
  · constructor
    · unfold stopGeolocation
      rw [hid]
      exact hid
    · unfold stopGeolocation
      rw [hid]
      exact hw
  · constructor
    · unfold stopGeolocation
      rw [hid]
    · unfold stopGeolocation
      rw [hid, hw]
      simp

lemma WatchInv_stop_inv (s : GeoState) (h : WatchInv s) : WatchInv (stopGeolocation s) :=
  Or.inl (WatchInv_stop s h)

lemma WatchInv_setMode (s : GeoState) (m : MovementMode) (h : WatchInv s) :
    WatchInv (setMovementMode s m) := by
  unfold setMovementMode
  split_ifs with h1 h2 h3 h3
  · exact h
  · exact WatchInv_start _ (by
      rcases WatchInv_stop_inv s h with ⟨hid, hw⟩ | ⟨w, hid, hw⟩
      · exact Or.inl ⟨hid, hw⟩
      · exact Or.inr ⟨w, hid, hw⟩)
  · rcases WatchInv_stop_inv s h with ⟨hid, hw⟩ | ⟨w, hid, hw⟩
    · exact Or.inl ⟨hid, hw⟩
    · exact Or.inr ⟨w, hid, hw⟩
  · exact WatchInv_start _ (by
      rcases h with ⟨hid, hw⟩ | ⟨w, hid, hw⟩
      · exact Or.inl ⟨hid, hw⟩
      · exact Or.inr ⟨w, hid, hw⟩)
  · rcases h with ⟨hid, hw⟩ | ⟨w, hid, hw⟩
    · exact Or.inl ⟨hid, hw⟩
    · exact Or.inr ⟨w, hid, hw⟩

lemma WatchInv_gstep (s : GeoState) (e : GEvent) (h : WatchInv s) : WatchInv (gstep s e) := by
  cases e with
  | setMode m => exact WatchInv_setMode s m h
  | reset => exact WatchInv_setMode _ MovementMode.buttons h
  | pos w c =>
    show WatchInv (posUpdate s w c)
    unfold posUpdate
    by_cases hmem : w ∈ s.activeWatches
    · rw [if_pos hmem]
      rcases h with ⟨hid, hw⟩ | ⟨w2, hid, hw⟩
      · exact Or.inl ⟨hid, hw⟩
      · exact Or.inr ⟨w2, hid, hw⟩
    · rw [if_neg hmem]
      exact h

lemma WatchInv_grun (es : List GEvent) :
    ∀ s : GeoState, WatchInv s → WatchInv (grun s es) := by
  induction es with
  | nil => intro s h; exact h
  | cons e rest ih => intro s h; exact ih (gstep s e) (WatchInv_gstep s e h)

/-- C10: at most one geolocation watch is ever active: `startGeolocation`
is a no-op while a watch is registered, `stopGeolocation` clears the
registered watch, and the none-or-exactly-one invariant is preserved by
every sequence of mode switches, resets and position updates, bounding the
number of simultaneously active watches by 1. -/
theorem C10_at_most_one_watch (s : GeoState) (es : List GEvent) (hinv : WatchInv s) :
    (∀ t : GeoState, t.geoWatchId ≠ none → startGeolocation t = t)
    ∧ (∀ t : GeoState, WatchInv t →
        (stopGeolocation t).geoWatchId = none ∧ (stopGeolocation t).activeWatches = [])
    ∧ WatchInv (grun s es)
    ∧ (grun s es).activeWatches.length ≤ 1 := by
  refine ⟨startGeolocation_of_some, WatchInv_stop, WatchInv_grun es s hinv, ?_⟩
  rcases WatchInv_grun es s hinv with ⟨_, hw⟩ | ⟨w, _, hw⟩ <;> simp [hw]

/-- C10 witness: from a fresh browser state, toggling to geolocation,
resetting, toggling twice more and delivering a stray update never yields
two active watches. -/
theorem C10_at_most_one_watch_witness :
    (grun ⟨MovementMode.buttons, none, true, 0, [], c00⟩
      [GEvent.setMode MovementMode.geolocation, GEvent.reset,
        GEvent.setMode MovementMode.geolocation, GEvent.pos 0 c00,
        GEvent.setMode MovementMode.buttons]).activeWatches.length ≤ 1 :=
  (C10_at_most_one_watch ⟨MovementMode.buttons, none, true, 0, [], c00⟩
    [GEvent.setMode MovementMode.geolocation, GEvent.reset,
      GEvent.setMode MovementMode.geolocation, GEvent.pos 0 c00,
      GEvent.setMode MovementMode.buttons]
    (Or.inl ⟨rfl, rfl⟩)).2.2.2

/-- C9 counterexample: starting the GPS feed and then pressing New Game
leaves `movementMode = "buttons"` with watch 0 still registered — the
reset assigns the mode directly before calling `setMovementMode`, whose
early return skips `stopGeolocation` — so a later position fix for watch 0
still moves the player while in buttons mode. -/
theorem C9_counterexample :
    ((grun ⟨MovementMode.buttons, none, true, 0, [], c00⟩
        [GEvent.setMode MovementMode.geolocation, GEvent.reset]).movementMode
      = MovementMode.buttons)
    ∧ ((grun ⟨MovementMode.buttons, none, true, 0, [], c00⟩
        [GEvent.setMode MovementMode.geolocation, GEvent.reset]).activeWatches = [0])
    ∧ ((gstep (grun ⟨MovementMode.buttons, none, true, 0, [], c00⟩
        [GEvent.setMode MovementMode.geolocation, GEvent.reset])
        (GEvent.pos 0 ⟨5, 5⟩)).playerCell = ⟨5, 5⟩)
    ∧ ((grun ⟨MovementMode.buttons, none, true, 0, [], c00⟩
        [GEvent.setMode MovementMode.geolocation, GEvent.reset]).playerCell ≠ ⟨5, 5⟩) := by
  decide

lemma posUpdate_empty (s : GeoState) (w : ℕ) (c : CellID) (h : s.activeWatches = []) :
    posUpdate s w c = s := by
  unfold posUpdate
  rw [if_neg]
  rw [h]
  exact List.not_mem_nil w

lemma grun_buttons_no_geo (es : List GEvent) :
    ∀ s : GeoState, s.movementMode = MovementMode.buttons → s.geoWatchId = none →
      s.activeWatches = [] → (∀ e ∈ es, e ≠ GEvent.setMode MovementMode.geolocation) →
      (grun s es).movementMode = MovementMode.buttons
        ∧ (grun s es).geoWatchId = none ∧ (grun s es).activeWatches = [] := by
  induction es with
  | nil => intro s h1 h2 h3 _; exact ⟨h1, h2, h3⟩
  | cons e rest ih =>
    intro s h1 h2 h3 hno
    have hrest : ∀ e2 ∈ rest, e2 ≠ GEvent.setMode MovementMode.geolocation :=
      fun e2 he2 => hno e2 (List.mem_cons_of_mem e he2)
    cases e with
    | setMode m =>
      cases m with
      | geolocation => exact absurd rfl (hno _ (List.mem_cons_self _ _))
      | buttons =>
        have hstep : gstep s (GEvent.setMode MovementMode.buttons) = s := by
          show setMovementMode s MovementMode.buttons = s
          unfold setMovementMode
          rw [if_pos h1]
        show _ ∧ _ ∧ _
        rw [show grun s (GEvent.setMode MovementMode.buttons :: rest)
            = grun (gstep s (GEvent.setMode MovementMode.buttons)) rest from rfl, hstep]
        exact ih s h1 h2 h3 hrest
    | reset =>
      have hstep : gstep s GEvent.reset
          = { s with movementMode := MovementMode.buttons, playerCell := CLASSROOM_CELL } := by
        show resetGameState s = _
        unfold resetGameState setMovementMode
        rw [if_pos rfl]
      show _ ∧ _ ∧ _
      rw [show grun s (GEvent.reset :: rest) = grun (gstep s GEvent.reset) rest from rfl, hstep]
      exact ih _ rfl h2 h3 hrest
    | pos w c =>
      have hstep : gstep s (GEvent.pos w c) = s := posUpdate_empty s w c h3
      show _ ∧ _ ∧ _
      rw [show grun s (GEvent.pos w c :: rest) = grun (gstep s (GEvent.pos w c)) rest from rfl,
        hstep]
      exact ih s h1 h2 h3 hrest

/-- C9 amended: a switch away from geolocation performed through
`setMovementMode` does stop the feed — the watch is cleared and, along any
continuation that never switches back to geolocation (including resets and
stray position updates), no position update has any effect.  The New Game
reset, however, bypasses this teardown (see the counterexample). -/
theorem C9_setMode_stops_feed (s : GeoState)
    (hmode : s.movementMode = MovementMode.geolocation) (hinv : WatchInv s) :
    (setMovementMode s MovementMode.buttons).movementMode = MovementMode.buttons
    ∧ (setMovementMode s MovementMode.buttons).geoWatchId = none
    ∧ (setMovementMode s MovementMode.buttons).activeWatches = []
    ∧ ∀ es : List GEvent, (∀ e ∈ es, e ≠ GEvent.setMode MovementMode.geolocation) →
        ∀ w c, posUpdate (grun (setMovementMode s MovementMode.buttons) es) w c
          = grun (setMovementMode s MovementMode.buttons) es := by
  have hne : ¬ s.movementMode = MovementMode.buttons := by
    rw [hmode]
    intro h
    cases h
  have hstop := WatchInv_stop s hinv
  have heq : setMovementMode s MovementMode.buttons
      = { stopGeolocation s with movementMode := MovementMode.buttons } := by
    unfold setMovementMode
    rw [if_neg hne, if_pos hmode]
    rfl
  refine ⟨by rw [heq], by rw [heq]; exact hstop.1, by rw [heq]; exact hstop.2, ?_⟩
  intro es hno w c
  have hrun := grun_buttons_no_geo es (setMovementMode s MovementMode.buttons)
    (by rw [heq]) (by rw [heq]; exact hstop.1) (by rw [heq]; exact hstop.2) hno
  exact posUpdate_empty _ w c hrun.2.2

/-- C9 amended witness: a concrete geolocation session with watch 0 active
is fully stopped by the facade switch; a later reset plus a stray fix for
watch 0 leaves the state untouched. -/
theorem C9_setMode_stops_feed_witness :
    (setMovementMode ⟨MovementMode.geolocation, some 0, true, 1, [0], c00⟩
      MovementMode.buttons).activeWatches = []
    ∧ posUpdate (grun (setMovementMode ⟨MovementMode.geolocation, some 0, true, 1, [0], c00⟩
        MovementMode.buttons) [GEvent.reset]) 0 ⟨5, 5⟩
      = grun (setMovementMode ⟨MovementMode.geolocation, some 0, true, 1, [0], c00⟩
        MovementMode.buttons) [GEvent.reset] :=
  ⟨(C9_setMode_stops_feed ⟨MovementMode.geolocation, some 0, true, 1, [0], c00⟩ rfl
      (Or.inr ⟨0, rfl, rfl⟩)).2.2.1,
    (C9_setMode_stops_feed ⟨MovementMode.geolocation, some 0, true, 1, [0], c00⟩ rfl
      (Or.inr ⟨0, rfl, rfl⟩)).2.2.2 [GEvent.reset] (by decide) 0 ⟨5, 5⟩⟩

end D3
